import Mathlib

/-!
Shallow embedding of `nn_pruning/examples/text_classification/glue_xp.py`
(label-space derivation, label remap resolution, preprocessing, metrics,
argument validation, and the disabled evaluation entry point), together
with theorems settling the specification claims about that file.
-/

namespace GlueXP

/-- Values appearing in dataset label columns and dictionary tables:
Python strings and integers. -/
inductive PyVal
  | str (s : String)
  | int (n : Int)
deriving DecidableEq, Repr

/-- Python exceptions that the modelled code can raise. -/
inductive PyErr
  | unboundLocal (name : String)
  | keyError
  | indexError
  | assertionError (msg : String)
  | valueError (msg : String)
deriving DecidableEq, Repr

/-- Boolean string order used by Python sorting of homogeneous string lists
(lexicographic by code point). -/
def strLe (a b : String) : Bool :=
  match compare a b with
  | .gt => false
  | _ => true

/-- Order used by Python `list.sort()` on label lists.  The lists the code
sorts are homogeneous (all strings or all ints); the cross-type cases are
arbitrary (Python would raise a TypeError there). -/
def PyVal.le : PyVal → PyVal → Bool
  | .int a, .int b => a ≤ b
  | .str a, .str b => strLe a b
  | .int _, .str _ => true
  | .str _, .int _ => false

/-- Insert an element into a list so that a sorted list stays sorted
with respect to the boolean order `le`. -/
def insertLe (le : α → α → Bool) (x : α) : List α → List α
  | [] => [x]
  | y :: ys => if le x y then x :: y :: ys else y :: insertLe le x ys

/-- Insertion sort with respect to the boolean order `le`; models Python
`list.sort()` / `sorted(...)` on homogeneous lists. -/
def sortLe (le : α → α → Bool) (l : List α) : List α :=
  l.foldr (insertLe le) []

/-- First-occurrence deduplication; models `Dataset.unique("label")`,
which returns the distinct values of a column. -/
def uniqAux [DecidableEq α] (seen : List α) : List α → List α
  | [] => []
  | x :: xs => if x ∈ seen then uniqAux seen xs else x :: uniqAux (x :: seen) xs

/-- Distinct values of a list, first occurrences kept in order. -/
def uniqList [DecidableEq α] (l : List α) : List α :=
  uniqAux [] l

/-- Update one key of an association list, in place if the key exists,
appended at the end otherwise; models Python `dict` item assignment. -/
def assocUpd [DecidableEq κ] (k : κ) (v : ν) : List (κ × ν) → List (κ × ν)
  | [] => [(k, v)]
  | (k1, v1) :: rest => if k1 = k then (k, v) :: rest else (k1, v1) :: assocUpd k v rest

/-- Build a dictionary from a list of key-value pairs, later entries
overriding earlier ones; models a Python dict comprehension. -/
def assocOf [DecidableEq κ] (l : List (κ × ν)) : List (κ × ν) :=
  l.foldl (fun d kv => assocUpd kv.1 kv.2 d) []

/-- Map a fallible function over a list, propagating the first failure;
models a Python list comprehension whose body may raise. -/
def mapME {ε β γ : Type} (f : β → Except ε γ) : List β → Except ε (List γ)
  | [] => Except.ok []
  | x :: xs =>
    match f x, mapME f xs with
    | Except.error e, _ => Except.error e
    | Except.ok _, Except.error e => Except.error e
    | Except.ok y, Except.ok ys => Except.ok (y :: ys)

/-- Dictionary lookup; `none` models a Python `KeyError`. -/
def assocGet? [DecidableEq κ] (l : List (κ × ν)) (k : κ) : Option ν :=
  match l with
  | [] => none
  | (k1, v1) :: rest => if k1 = k then some v1 else assocGet? rest k

/-- Keys of a dictionary, in order. -/
def assocKeys (l : List (κ × ν)) : List κ :=
  l.map Prod.fst

/-- Python `dict` equality: same key set and the same value at every key.
Both dictionaries are compared through their canonical sorted key list.
The dictionaries this file compares are duplicate-free. -/
def dictEqB (a b : List (String × Int)) : Bool :=
  let keysA := sortLe strLe (uniqList (assocKeys a))
  let keysB := sortLe strLe (uniqList (assocKeys b))
  keysA == keysB && keysA.all (fun k => assocGet? a k == assocGet? b k)

/-- The fixed table mapping each GLUE task name to its
(sentence1 key, optional sentence2 key) pair; source `task_to_keys`. -/
def task_to_keys : List (String × (String × Option String)) :=
  [("cola", ("sentence", none)),
   ("mnli", ("premise", some "hypothesis")),
   ("mrpc", ("sentence1", some "sentence2")),
   ("qnli", ("question", some "sentence")),
   ("qqp", ("question1", some "question2")),
   ("rte", ("sentence1", some "sentence2")),
   ("sst2", ("sentence", none)),
   ("stsb", ("sentence1", some "sentence2")),
   ("wnli", ("sentence1", some "sentence2"))]

/-- The 9 canonical GLUE task identifiers (keys of `task_to_keys`). -/
def glueTaskNames : List String :=
  assocKeys task_to_keys

/-- The configuration fields of `GlueDataTrainingArguments` that its
`__post_init__` validation inspects. -/
structure GlueDataArgs where
  task_name : Option String
  train_file : Option String
  validation_file : Option String
deriving DecidableEq, Repr

/-- Lower-casing of a string; models Python `str.lower()` on the ASCII
task and label names this file handles. -/
def strLower (s : String) : String :=
  String.mk (s.data.map Char.toLower)

/-- Split a character list at every dot, as Python `str.split(".")`
does. -/
def splitDots : List Char → List (List Char)
  | [] => [[]]
  | c :: cs =>
    match splitDots cs with
    | [] => [[]]
    | p :: ps => if c = '.' then [] :: p :: ps else (c :: p) :: ps

/-- Extension of a file name: the part after the last dot, as computed by
`f.split(".")[-1]` in the source. -/
def fileExtension (f : String) : String :=
  String.mk ((splitDots f.data).getLastD [])

/-- Validation of `GlueDataTrainingArguments.__post_init__`: a given task
name is lower-cased and must be a known GLUE task; otherwise both file
paths must be present with extension csv or json. -/
def post_init (a : GlueDataArgs) : Except PyErr GlueDataArgs :=
  match a.task_name with
  | some t =>
    let t := strLower t
    if t ∈ glueTaskNames then Except.ok { a with task_name := some t }
    else Except.error (PyErr.valueError "Unknown task, you should pick one in the task list")
  | none =>
    match a.train_file, a.validation_file with
    | some tf, some vf =>
      if fileExtension tf = "csv" ∨ fileExtension tf = "json" then
        if fileExtension vf = "csv" ∨ fileExtension vf = "json" then Except.ok a
        else Except.error (PyErr.assertionError "validation_file should be a csv or a json file")
      else Except.error (PyErr.assertionError "train_file should be a csv or a json file")
    | _, _ => Except.error (PyErr.valueError "Need either a GLUE task or a training/validation file")

/-- What `create_datasets` reads from the loaded training split: the
declared class-label names of the `label` feature (GLUE classification
tasks), the element dtype of the `label` column, and the raw values of the
`label` column of the training split. -/
structure DatasetInfo where
  labelNames : List PyVal
  labelDtype : String
  trainLabels : List PyVal
deriving DecidableEq, Repr

/-- Label-space derivation, lines 164-184 of `create_datasets`: computes
`is_regression`, `num_labels`, and the local variable `label_list`
(`none` when the source leaves it unassigned, i.e. on both regression
branches). -/
def deriveLabelSpace (task_name : Option String) (ds : DatasetInfo) : Bool × Nat × Option (List PyVal) :=
  match task_name with
  | some t =>
    let is_regression := t == "stsb"
    if is_regression then (true, 1, none)
    else (false, ds.labelNames.length, some ds.labelNames)
  | none =>
    let is_regression := ds.labelDtype == "float32" || ds.labelDtype == "float64"
    if is_regression then (true, 1, none)
    else
      let label_list := sortLe PyVal.le (uniqList ds.trainLabels)
      (false, label_list.length, some label_list)

/-- The label-to-id mapping `PretrainedConfig(num_labels=n).label2id`:
`LABEL_0 .. LABEL_(n-1)` mapped to `0 .. n-1`. -/
def defaultLabel2Id (n : Nat) : List (String × Int) :=
  (List.range n).map (fun i => ("LABEL_" ++ toString i, (i : Int)))

/-- Inputs of the label remap resolution step (lines 214-237 of
`create_datasets`): the model config's `label2id`, the task name, the
derived regression flag, the derived `label_list` and `num_labels`. -/
structure RemapInput where
  label2id : List (String × Int)
  task_name : Option String
  is_regression : Bool
  label_list : List PyVal
  num_labels : Nat
deriving DecidableEq, Repr

/-- The model's `label2id` with lower-cased keys,
`{k.lower(): v for k, v in model_config.label2id.items()}`. -/
def lowerDict (d : List (String × Int)) : List (String × Int) :=
  assocOf (d.map (fun kv => (strLower kv.1, kv.2)))

/-- One entry of `{i: label_name_to_id[label_list[i]] for i in range(num_labels)}`:
index the label list and look the value up among the lower-cased model
label names; an out-of-range index or a missing/non-string key raises. -/
def remapEntry (lnti : List (String × Int)) (label_list : List PyVal) (i : Nat) : Except PyErr (PyVal × Int) :=
  match label_list.get? i with
  | none => Except.error PyErr.indexError
  | some (PyVal.int _) => Except.error PyErr.keyError
  | some (PyVal.str s) =>
    match assocGet? lnti s with
    | none => Except.error PyErr.keyError
    | some v => Except.ok (PyVal.int i, v)

/-- The dataset-index-to-model-id table
`{i: label_name_to_id[label_list[i]] for i in range(num_labels)}`. -/
def buildRemap (lnti : List (String × Int)) (label_list : List PyVal) (num_labels : Nat) : Except PyErr (List (PyVal × Int)) :=
  mapME (remapEntry lnti label_list) (List.range num_labels)

/-- The direct value-to-index table
`{v: i for i, v in enumerate(label_list)}`. -/
def enumTable (label_list : List PyVal) : List (PyVal × Int) :=
  assocOf (label_list.enum.map (fun p => (p.2, (p.1 : Int))))

/-- Label remap resolution, lines 214-237 of `create_datasets`: starting
from `label_to_id = None`, the model-label remap branch runs only when the
model's `label2id` differs from the default, a task name is given, and
`is_regression` holds; inside it the sorted lower-cased model label names
are compared with the sorted label list, building the positional table on
equality and logging a warning otherwise.  When no task name is given the
direct value-to-index table is built.  Returns `(label_to_id, warned)`. -/
def resolveLabelToId (inp : RemapInput) : Except PyErr (Option (List (PyVal × Int)) × Bool) :=
  if dictEqB inp.label2id (defaultLabel2Id inp.num_labels) = false
      ∧ inp.task_name ≠ none ∧ inp.is_regression = true then
    let lnti := lowerDict inp.label2id
    if sortLe PyVal.le ((assocKeys lnti).map PyVal.str) = sortLe PyVal.le inp.label_list then
      match buildRemap lnti inp.label_list inp.num_labels with
      | Except.error e => Except.error e
      | Except.ok t => Except.ok (some t, false)
    else
      Except.ok (none, true)
  else if inp.task_name = none then
    Except.ok (some (enumTable inp.label_list), false)
  else
    Except.ok (none, false)

/-- The label-related state `create_datasets` stores on `self`:
`is_regression`, `label_list`, `num_labels`, `label_to_id`, plus whether
the label-mismatch warning was logged. -/
structure LabelState where
  is_regression : Bool
  label_list : List PyVal
  num_labels : Nat
  label_to_id : Option (List (PyVal × Int))
  warned : Bool
deriving DecidableEq, Repr

/-- The label pipeline of `create_datasets` (lines 164-237): derive the
label space, store it on `self` — the unconditional `self.label_list =
label_list` raises `UnboundLocalError` whenever the regression branches
left `label_list` unassigned — then resolve `label_to_id`. -/
def create_datasets_labels (task_name : Option String) (ds : DatasetInfo)
    (label2id : List (String × Int)) : Except PyErr LabelState :=
  let d := deriveLabelSpace task_name ds
  match d.2.2 with
  | none => Except.error (PyErr.unboundLocal "label_list")
  | some label_list =>
    match resolveLabelToId ⟨label2id, task_name, d.1, label_list, d.2.1⟩ with
    | Except.error e => Except.error e
    | Except.ok (tbl, warned) => Except.ok ⟨d.1, label_list, d.2.1, tbl, warned⟩

/-- The padding policy: `padding="max_length"` (fixed length) when
`pad_to_max_length` is set, `padding=False` (dynamic, per batch)
otherwise. -/
inductive Padding
  | maxLength
  | dynamic
deriving DecidableEq, Repr

/-- An example batch handed to `preprocess_function` by `datasets.map`:
its text columns and, when present, its `label` column. -/
structure Batch where
  cols : List (String × List String)
  labels : Option (List PyVal)
deriving DecidableEq, Repr

/-- The arguments `preprocess_function` passes to the tokenizer
collaborator: one or two text sequences and the padding, max-length and
truncation options. -/
structure TokCall where
  textsA : List String
  textsB : Option (List String)
  padding : Padding
  maxLength : Option Nat
  truncation : Bool
deriving DecidableEq, Repr

/-- The batch produced by `preprocess_function`: the tokenizer call it
made, and the resulting `label` column (`none` when the batch had no
labels). -/
structure PreResult where
  tok : TokCall
  label : Option (List PyVal)
deriving DecidableEq, Repr

/-- Column access `examples[key]`; a missing column raises `KeyError`. -/
def getCol (b : Batch) (k : String) : Except PyErr (List String) :=
  match assocGet? b.cols k with
  | some v => Except.ok v
  | none => Except.error PyErr.keyError

/-- One label lookup `label_to_id[l]`. -/
def labelLookup (tbl : List (PyVal × Int)) (l : PyVal) : Except PyErr PyVal :=
  match assocGet? tbl l with
  | some v => Except.ok (PyVal.int v)
  | none => Except.error PyErr.keyError

/-- Fetch the optional second text column: nothing when the key is
absent, `examples[key]` when present. -/
def getColOpt (b : Batch) (k : Option String) : Except PyErr (Option (List String)) :=
  match k with
  | none => Except.ok none
  | some k2 =>
    match getCol b k2 with
    | Except.error e => Except.error e
    | Except.ok tb => Except.ok (some tb)

/-- The `preprocess_function` closure (lines 239-250): tokenize
`examples[sentence1_key]` alone when `sentence2_key` is `None` and the two
columns jointly otherwise, with the configured padding, max length and
`truncation=True`; then, if `label_to_id` is not `None` and the batch has
a `label` column, rewrite every label through the table, else leave the
labels untouched. -/
def preprocess_function (sentence1_key : String) (sentence2_key : Option String)
    (padding : Padding) (maxLength : Option Nat)
    (label_to_id : Option (List (PyVal × Int))) (b : Batch) : Except PyErr PreResult :=
  match getCol b sentence1_key with
  | Except.error e => Except.error e
  | Except.ok textsA =>
    match getColOpt b sentence2_key with
    | Except.error e => Except.error e
    | Except.ok textsB =>
      let tok : TokCall := ⟨textsA, textsB, padding, maxLength, true⟩
      match label_to_id, b.labels with
      | some tbl, some ls =>
        (match mapME (labelLookup tbl) ls with
         | Except.error e => Except.error e
         | Except.ok ls2 => Except.ok ⟨tok, some ls2⟩)
      | _, _ => Except.ok ⟨tok, b.labels⟩

/-- Index of the first maximum of a row; models `np.argmax` on one row of
the prediction matrix. -/
def argmaxIdx (l : List ℚ) : Nat :=
  (l.enum.foldl (fun best p => if best.2 < p.2 then p else best) (0, l.headD 0)).1

/-- Arithmetic mean; models `np.mean` over a nonempty array. -/
def qMean (l : List ℚ) : ℚ :=
  l.sum / l.length

/-- The `compute_metrics` closure (lines 284-295): squeeze the prediction
matrix when regressing, take row-wise argmax otherwise; with a task name,
defer to the task metric collaborator (adding `combined_score` when it
yields several values); with no task name fall back to raw mean squared
error for regression and to plain accuracy for classification. -/
def compute_metrics (metric : List ℚ → List ℚ → List (String × ℚ))
    (task_name : Option String) (is_regression : Bool)
    (predictions : List (List ℚ)) (label_ids : List ℚ) : List (String × ℚ) :=
  let preds : List ℚ :=
    if is_regression then predictions.map (fun r => r.headD 0)
    else predictions.map (fun r => (argmaxIdx r : ℚ))
  match task_name with
  | some _ =>
    let result := metric preds label_ids
    if 1 < result.length then
      result ++ [("combined_score", qMean (result.map Prod.snd))]
    else result
  | none =>
    if is_regression then
      [("mse", qMean ((preds.zip label_ids).map (fun p => (p.1 - p.2) ^ 2)))]
    else
      [("accuracy", qMean ((preds.zip label_ids).map (fun p => if p.1 = p.2 then (1 : ℚ) else 0)))]

/-- Observable side effects of `evaluate_model`'s body: the
`run_from_dict` call and the two json file reads. -/
inductive EvalEvent
  | runCall (params : List (String × PyVal))
  | readFile (path : String)
deriving DecidableEq, Repr

/-- A Python `assert`: succeeds on `true`, raises `AssertionError`
otherwise. -/
def pyAssert (b : Bool) : Except PyErr Unit :=
  if b then Except.ok () else Except.error (PyErr.assertionError "")

/-- The classmethod `evaluate_model` (lines 324-355).  Its body starts
with `assert(False)`; the remaining statements — path resolution, the
hard-coded squad parameter dict, the `run_from_dict` call and the two
json reads — are embedded after it, with the collaborators passed in as
functions that also report the side effects they perform.  The result
pairs the returned value with the list of performed side effects. -/
def evaluate_model (resolvePath : String → String)
    (runFromDict : List (String × PyVal) → List EvalEvent)
    (readJson : String → PyVal × List EvalEvent)
    (src_path : String) (optimize_mode : String) :
    Except PyErr (List (String × PyVal)) × List EvalEvent :=
  match pyAssert false with
  | Except.error e => (Except.error e, [])
  | Except.ok _ =>
    let src := resolvePath src_path
    let parameters : List (String × PyVal) :=
      [("model_name_or_path", PyVal.str src),
       ("dataset_name", PyVal.str "squad"),
       ("do_train", PyVal.int 0),
       ("do_eval", PyVal.int 1),
       ("per_device_train_batch_size", PyVal.int 16),
       ("max_seq_length", PyVal.int 384),
       ("doc_stride", PyVal.int 128),
       ("output_dir", PyVal.str src),
       ("logging_dir", PyVal.str src),
       ("overwrite_cache", PyVal.int 0),
       ("overwrite_output_dir", PyVal.int 0),
       ("per_device_eval_batch_size", PyVal.int 128),
       ("optimize_model_before_eval", PyVal.str optimize_mode)]
    let ev1 := runFromDict parameters
    let r1 := readJson (src ++ "/checkpoint-0/evaluate_timing.json")
    let r2 := readJson (src ++ "/checkpoint-0/eval_metrics.json")
    (Except.ok [("timings", r1.1), ("metrics", r2.1)], ev1 ++ r1.2 ++ r2.2)

section Lemmas

variable {α : Type} {κ ν : Type}

theorem insertLe_perm (le : α → α → Bool) (x : α) (l : List α) :
    List.Perm (insertLe le x l) (x :: l) := by
  induction l with
  | nil => exact List.Perm.refl _
  | cons y ys ih =>
    by_cases h : le x y = true
    · simp only [insertLe, h, if_true]
      exact List.Perm.refl _
    · simp only [insertLe, h, if_false]
      exact (ih.cons y).trans (List.Perm.swap x y ys)

theorem sortLe_perm (le : α → α → Bool) (l : List α) :
    List.Perm (sortLe le l) l := by
  induction l with
  | nil => exact List.Perm.refl _
  | cons x xs ih =>
    have h : sortLe le (x :: xs) = insertLe le x (sortLe le xs) := rfl
    rw [h]
    exact (insertLe_perm le x (sortLe le xs)).trans (ih.cons x)

theorem sortLe_length (le : α → α → Bool) (l : List α) :
    (sortLe le l).length = l.length :=
  (sortLe_perm le l).length_eq

theorem sortLe_mem (le : α → α → Bool) (x : α) (l : List α) :
    x ∈ sortLe le l ↔ x ∈ l :=
  (sortLe_perm le l).mem_iff

theorem mem_uniqAux [DecidableEq α] (seen l : List α) (y : α) :
    y ∈ uniqAux seen l ↔ y ∈ l ∧ y ∉ seen := by
  induction l generalizing seen with
  | nil => simp [uniqAux]
  | cons x xs ih =>
    by_cases hx : x ∈ seen
    · rw [uniqAux, if_pos hx, ih]
      constructor
      · rintro ⟨h1, h2⟩; exact ⟨List.mem_cons_of_mem x h1, h2⟩
      · rintro ⟨h1, h2⟩
        rcases List.mem_cons.mp h1 with rfl | h1
        · exact absurd hx h2
        · exact ⟨h1, h2⟩
    · rw [uniqAux, if_neg hx]
      constructor
      · intro hmem
        rcases List.mem_cons.mp hmem with rfl | hmem
        · exact ⟨List.mem_cons_self y xs, hx⟩
        · rcases (ih (x :: seen)).mp hmem with ⟨h1, h2⟩
          exact ⟨List.mem_cons_of_mem x h1, fun hy => h2 (List.mem_cons_of_mem x hy)⟩
      · rintro ⟨h1, h2⟩
        rcases List.mem_cons.mp h1 with rfl | h1
        · exact List.mem_cons_self y _
        · by_cases hyx : y = x
          · exact hyx ▸ List.mem_cons_self x _
          · refine List.mem_cons_of_mem x ((ih (x :: seen)).mpr ⟨h1, fun hy => ?_⟩)
            rcases List.mem_cons.mp hy with h3 | h3
            · exact hyx h3
            · exact h2 h3

theorem uniqAux_nodup [DecidableEq α] (seen l : List α) :
    (uniqAux seen l).Nodup := by
  induction l generalizing seen with
  | nil => simp [uniqAux]
  | cons x xs ih =>
    by_cases hx : x ∈ seen
    · simpa [uniqAux, hx] using ih seen
    · simp only [uniqAux, hx, if_false, List.nodup_cons]
      refine ⟨fun hmem => ?_, ih (x :: seen)⟩
      exact ((mem_uniqAux (x :: seen) xs x).mp hmem).2 (List.mem_cons_self x seen)

theorem mem_uniqList [DecidableEq α] (l : List α) (y : α) :
    y ∈ uniqList l ↔ y ∈ l := by
  simp [uniqList, mem_uniqAux]

theorem uniqList_nodup [DecidableEq α] (l : List α) :
    (uniqList l).Nodup :=
  uniqAux_nodup [] l

theorem uniqList_length_eq_card [DecidableEq α] (l : List α) :
    (uniqList l).length = l.toFinset.card := by
  have htf : (uniqList l).toFinset = l.toFinset := by
    ext y
    simp [List.mem_toFinset, mem_uniqList]
  calc (uniqList l).length = (uniqList l).toFinset.card :=
        (List.toFinset_card_of_nodup (uniqList_nodup l)).symm
    _ = l.toFinset.card := by rw [htf]

theorem assocGet?_isSome_of_mem_keys [DecidableEq κ] (l : List (κ × ν)) (k : κ)
    (h : k ∈ assocKeys l) : ∃ v, assocGet? l k = some v := by
  induction l with
  | nil => simp [assocKeys] at h
  | cons p rest ih =>
    by_cases hk : p.1 = k
    · exact ⟨p.2, by simp [assocGet?, hk]⟩
    · have : k ∈ assocKeys rest := by
        rcases List.mem_cons.mp h with h1 | h1
        · exact absurd h1.symm hk
        · exact h1
      rcases ih this with ⟨v, hv⟩
      exact ⟨v, by simp [assocGet?, hk, hv]⟩

theorem assocUpd_of_not_mem [DecidableEq κ] (k : κ) (v : ν) (d : List (κ × ν))
    (h : k ∉ assocKeys d) : assocUpd k v d = d ++ [(k, v)] := by
  induction d with
  | nil => rfl
  | cons p rest ih =>
    have hp : ¬ p.1 = k := fun he => h (by simp [assocKeys, he])
    have hr : k ∉ assocKeys rest := fun hm => h (by simp [assocKeys] at hm ⊢; exact Or.inr hm)
    simp [assocUpd, hp, ih hr]

theorem assocOf_aux [DecidableEq κ] (l : List (κ × ν)) :
    ∀ acc : List (κ × ν), (assocKeys (acc ++ l)).Nodup →
      List.foldl (fun d kv => assocUpd kv.1 kv.2 d) acc l = acc ++ l := by
  induction l with
  | nil => intro acc _; simp
  | cons kv rest ih =>
    intro acc h
    have hkeys : assocKeys (acc ++ kv :: rest)
        = assocKeys acc ++ kv.1 :: assocKeys rest := by
      simp [assocKeys]
    rw [hkeys] at h
    have hk : kv.1 ∉ assocKeys acc := by
      intro hm
      exact (List.disjoint_of_nodup_append h) hm (List.mem_cons_self kv.1 _)
    have hrest : (assocKeys ((acc ++ [kv]) ++ rest)).Nodup := by
      have : assocKeys ((acc ++ [kv]) ++ rest)
          = assocKeys acc ++ kv.1 :: assocKeys rest := by
        simp [assocKeys]
      rw [this]
      exact h
    calc List.foldl (fun d p => assocUpd p.1 p.2 d) acc (kv :: rest)
        = List.foldl (fun d p => assocUpd p.1 p.2 d) (assocUpd kv.1 kv.2 acc) rest := by
          rw [List.foldl_cons]
      _ = List.foldl (fun d p => assocUpd p.1 p.2 d) (acc ++ [kv]) rest := by
          rw [assocUpd_of_not_mem kv.1 kv.2 acc hk]
      _ = (acc ++ [kv]) ++ rest := ih (acc ++ [kv]) hrest
      _ = acc ++ kv :: rest := by simp

theorem assocOf_eq_self [DecidableEq κ] (l : List (κ × ν))
    (h : (assocKeys l).Nodup) : assocOf l = l := by
  have := assocOf_aux l [] (by simpa using h)
  simpa [assocOf] using this

theorem assocKeys_enumFrom (L : List PyVal) :
    ∀ k : Nat, assocKeys ((List.enumFrom k L).map (fun p => (p.2, (p.1 : Int)))) = L := by
  induction L with
  | nil => intro k; rfl
  | cons x xs ih =>
    intro k
    simp only [List.enumFrom, List.map_cons, assocKeys, List.map_map]
    have := ih (k + 1)
    simp only [assocKeys, List.map_map] at this
    rw [this]

theorem assocGet?_enumFrom (L : List PyVal) (hnd : L.Nodup) :
    ∀ (k i : Nat) (v : PyVal), L.get? i = some v →
      assocGet? ((List.enumFrom k L).map (fun p => (p.2, (p.1 : Int)))) v = some (k + i) := by
  induction L with
  | nil => intro k i v h; simp at h
  | cons x xs ih =>
    intro k i v h
    cases i with
    | zero =>
      have hv : x = v := by simpa using h
      subst hv
      simp [List.enumFrom, assocGet?]
    | succ n =>
      have hn : xs.get? n = some v := by simpa using h
      have hv : v ∈ xs := List.get?_mem hn
      have hx : ¬ x = v := fun he => (List.nodup_cons.mp hnd).1 (he ▸ hv)
      simp only [List.enumFrom, List.map_cons, assocGet?, hx, if_false]
      have harith : k + (n + 1) = k + 1 + n := by omega
      rw [harith]
      exact ih (List.nodup_cons.mp hnd).2 (k + 1) n v hn

theorem assocGet?_enumTable (L : List PyVal) (hnd : L.Nodup) (i : Nat) (v : PyVal)
    (h : L.get? i = some v) : assocGet? (enumTable L) v = some i := by
  have henum : L.enum = List.enumFrom 0 L := rfl
  have hkeys : (assocKeys (L.enum.map (fun p => (p.2, (p.1 : Int))))).Nodup := by
    rw [henum, assocKeys_enumFrom L 0]
    exact hnd
  rw [enumTable, assocOf_eq_self _ hkeys, henum]
  have := assocGet?_enumFrom L hnd 0 i v h
  simpa using this

theorem mapME_ok_of_forall_ok {ε β γ : Type} (f : β → Except ε γ) (l : List β)
    (h : ∀ x ∈ l, ∃ y, f x = Except.ok y) :
    ∃ ys, mapME f l = Except.ok ys := by
  induction l with
  | nil => exact ⟨[], rfl⟩
  | cons x xs ih =>
    rcases h x (List.mem_cons_self x xs) with ⟨y, hy⟩
    rcases ih (fun z hz => h z (List.mem_cons_of_mem x hz)) with ⟨ys, hys⟩
    exact ⟨y :: ys, by rw [mapME, hy, hys]⟩

theorem mapME_ok_length_get {ε β γ : Type} (f : β → Except ε γ) :
    ∀ (l : List β) (ys : List γ), mapME f l = Except.ok ys →
      ys.length = l.length
      ∧ ∀ (j : Nat) (x : β), l.get? j = some x →
          ∃ y, f x = Except.ok y ∧ ys.get? j = some y := by
  intro l
  induction l with
  | nil =>
    intro ys h
    have hys : ys = [] := by
      rw [mapME] at h
      exact (Except.ok.inj h).symm
    subst hys
    exact ⟨rfl, fun j x hj => by simp at hj⟩
  | cons x xs ih =>
    intro ys h
    rw [mapME] at h
    cases hfx : f x with
    | error e => rw [hfx] at h; exact absurd h (by simp)
    | ok y =>
      rw [hfx] at h
      cases hm : mapME f xs with
      | error e => rw [hm] at h; exact absurd h (by simp)
      | ok zs =>
        rw [hm] at h
        have hys : ys = y :: zs := (Except.ok.inj h).symm
        subst hys
        obtain ⟨hlen, hget⟩ := ih zs hm
        refine ⟨by simp [hlen], fun j x0 hj => ?_⟩
        cases j with
        | zero =>
          have hx0 : x = x0 := by simpa using hj
          subst hx0
          exact ⟨y, hfx, rfl⟩
        | succ n =>
          have hj2 : xs.get? n = some x0 := by simpa using hj
          rcases hget n x0 hj2 with ⟨y0, hy0, hz⟩
          exact ⟨y0, hy0, by simpa using hz⟩

theorem getCol_ok_iff (b : Batch) (k : String) (v : List String) :
    getCol b k = Except.ok v ↔ assocGet? b.cols k = some v := by
  unfold getCol
  cases h : assocGet? b.cols k <;> simp [h]

end Lemmas

/-- C9: for each of the 9 canonical task names, `task_to_keys` resolves to
exactly the documented (fieldA, fieldB-or-none) pair: cola→(sentence, none),
mnli→(premise, hypothesis), mrpc→(sentence1, sentence2), qnli→(question,
sentence), qqp→(question1, question2), rte→(sentence1, sentence2),
sst2→(sentence, none), stsb→(sentence1, sentence2),
wnli→(sentence1, sentence2). -/
theorem c9_task_to_keys_resolution :
    assocGet? task_to_keys "cola" = some ("sentence", none)
    ∧ assocGet? task_to_keys "mnli" = some ("premise", some "hypothesis")
    ∧ assocGet? task_to_keys "mrpc" = some ("sentence1", some "sentence2")
    ∧ assocGet? task_to_keys "qnli" = some ("question", some "sentence")
    ∧ assocGet? task_to_keys "qqp" = some ("question1", some "question2")
    ∧ assocGet? task_to_keys "rte" = some ("sentence1", some "sentence2")
    ∧ assocGet? task_to_keys "sst2" = some ("sentence", none)
    ∧ assocGet? task_to_keys "stsb" = some ("sentence1", some "sentence2")
    ∧ assocGet? task_to_keys "wnli" = some ("sentence1", some "sentence2")
    ∧ task_to_keys.length = 9 := by
  decide

/-- C10: for every input (any collaborators, any `src_path`, any
`optimize_mode`), `evaluate_model` fails with an assertion failure before
performing any work: the result is the `AssertionError` of its leading
`assert(False)` and the list of performed side effects is empty — no
parameter dict reaches `run_from_dict`, no file is read, and no value is
returned. -/
theorem c10_evaluate_model_always_fails :
    ∀ (resolvePath : String → String)
      (runFromDict : List (String × PyVal) → List EvalEvent)
      (readJson : String → PyVal × List EvalEvent)
      (src_path optimize_mode : String),
      evaluate_model resolvePath runFromDict readJson src_path optimize_mode
        = (Except.error (PyErr.assertionError ""), []) :=
  fun _ _ _ _ _ => rfl

/-- C2 (code bug): for task `stsb` the label-space derivation takes the
regression branch, which leaves the local `label_list` unassigned, so
`create_datasets` raises `UnboundLocalError` at `self.label_list =
label_list` instead of completing with `is_regression = true` and
`num_labels = 1`. -/
theorem c2_stsb_never_completes :
    ∀ (ds : DatasetInfo) (label2id : List (String × Int)),
      create_datasets_labels (some "stsb") ds label2id
        = Except.error (PyErr.unboundLocal "label_list") :=
  fun _ _ => rfl

/-- C3: whenever `is_regression` is derived as `true` — the task name is
`stsb`, or there is no task name and the label column dtype is `float32`
or `float64` — the label pipeline of `create_datasets` raises an
unbound-local-variable error at `self.label_list = label_list` and never
completes normally. -/
theorem c3_regression_raises_unbound_local
    (task_name : Option String) (ds : DatasetInfo) (label2id : List (String × Int))
    (h : task_name = some "stsb"
        ∨ (task_name = none ∧ (ds.labelDtype = "float32" ∨ ds.labelDtype = "float64"))) :
    create_datasets_labels task_name ds label2id
      = Except.error (PyErr.unboundLocal "label_list") := by
  rcases h with rfl | ⟨rfl, hf | hf⟩
  · rfl
  · simp [create_datasets_labels, deriveLabelSpace, hf]
  · simp [create_datasets_labels, deriveLabelSpace, hf]

/-- Witness for C3: on task `stsb` (a regression input) the pipeline
raises the unbound-local error. -/
theorem c3_regression_raises_unbound_local_witness :
    create_datasets_labels (some "stsb") ⟨[], "int64", []⟩ []
      = Except.error (PyErr.unboundLocal "label_list") :=
  c3_regression_raises_unbound_local (some "stsb") ⟨[], "int64", []⟩ [] (Or.inl rfl)

/-- C4: with no task name, the derivation sets `is_regression` exactly
when the label column dtype is `float32` or `float64`, with `num_labels = 1`
in that case; otherwise `label_list` is the sorted unique training label
values, `num_labels` is their count, and in particular a categorical
column with N distinct values yields `num_labels = N` and
`is_regression = false`. -/
theorem c4_no_task_label_space (ds : DatasetInfo) :
    ((deriveLabelSpace none ds).1 = true
        ↔ (ds.labelDtype = "float32" ∨ ds.labelDtype = "float64"))
    ∧ ((deriveLabelSpace none ds).1 = true → (deriveLabelSpace none ds).2.1 = 1)
    ∧ ((deriveLabelSpace none ds).1 = false →
        (deriveLabelSpace none ds).2.2 = some (sortLe PyVal.le (uniqList ds.trainLabels))
        ∧ (deriveLabelSpace none ds).2.1 = ds.trainLabels.toFinset.card) := by
  by_cases hf : ds.labelDtype = "float32" ∨ ds.labelDtype = "float64"
  · rcases hf with hf | hf <;>
      simp [deriveLabelSpace, hf]
  · have h1 : ¬ ds.labelDtype = "float32" := fun h => hf (Or.inl h)
    have h2 : ¬ ds.labelDtype = "float64" := fun h => hf (Or.inr h)
    have hd : deriveLabelSpace none ds
        = (false, (sortLe PyVal.le (uniqList ds.trainLabels)).length,
           some (sortLe PyVal.le (uniqList ds.trainLabels))) := by
      simp [deriveLabelSpace, h1, h2]
    rw [hd]
    refine ⟨by simp [h1, h2], by simp, fun _ => ⟨rfl, ?_⟩⟩
    show (sortLe PyVal.le (uniqList ds.trainLabels)).length = ds.trainLabels.toFinset.card
    rw [sortLe_length, uniqList_length_eq_card]

/-- Witness for C4: a two-category string label column yields
`num_labels = 2`, `is_regression = false`, and the sorted unique label
list. -/
theorem c4_no_task_label_space_witness :
    (deriveLabelSpace none ⟨[], "string", [PyVal.str "pos", PyVal.str "neg", PyVal.str "pos"]⟩).1 = false
    ∧ (deriveLabelSpace none ⟨[], "string", [PyVal.str "pos", PyVal.str "neg", PyVal.str "pos"]⟩).2.1 = 2 := by
  have h := c4_no_task_label_space ⟨[], "string", [PyVal.str "pos", PyVal.str "neg", PyVal.str "pos"]⟩
  have hreg : (deriveLabelSpace none ⟨[], "string", [PyVal.str "pos", PyVal.str "neg", PyVal.str "pos"]⟩).1 = false := by
    decide
  refine ⟨hreg, ?_⟩
  rw [(h.2.2 hreg).2]
  decide

/-- Sum of a rational 0/1 indicator over a list equals the count of
elements satisfying the predicate. -/
theorem sum_indicator_eq_countP {β : Type} (p : β → Prop) [DecidablePred p] (l : List β) :
    (l.map (fun x => if p x then (1 : ℚ) else 0)).sum
      = (l.countP (fun x => decide (p x)) : ℚ) := by
  induction l with
  | nil => simp
  | cons x xs ih =>
    by_cases h : p x
    · simp only [List.map_cons, List.sum_cons, ih, List.countP_cons, h, if_true,
        decide_eq_true_eq, if_pos]
      push_cast
      ring
    · simp [List.countP_cons, h, ih]

/-- C7: with no task name, `compute_metrics` returns the raw mean squared
error of the squeezed predictions when `is_regression` holds and the
plain accuracy — the fraction of argmax predictions equal to the
references — otherwise. -/
theorem c7_no_task_fallback_metrics
    (metric : List ℚ → List ℚ → List (String × ℚ))
    (predictions : List (List ℚ)) (label_ids : List ℚ)
    (hlen : predictions.length = label_ids.length) :
    compute_metrics metric none true predictions label_ids
      = [("mse",
          (((predictions.map (fun r => r.headD 0)).zip label_ids).map
              (fun p => (p.1 - p.2) ^ 2)).sum / (label_ids.length : ℚ))]
    ∧ compute_metrics metric none false predictions label_ids
      = [("accuracy",
          ((((predictions.map (fun r => (argmaxIdx r : ℚ))).zip label_ids).countP
              (fun p => decide (p.1 = p.2)) : ℚ) / (label_ids.length : ℚ)))] := by
  constructor
  · simp only [compute_metrics, if_true, qMean]
    have hl : (((predictions.map (fun r => r.headD 0)).zip label_ids).map
        (fun p => (p.1 - p.2) ^ 2)).length = label_ids.length := by
      simp [List.length_zip, hlen]
    rw [hl]
  · simp only [compute_metrics, Bool.false_eq_true, if_false, qMean]
    have hl : (((predictions.map (fun r => (argmaxIdx r : ℚ))).zip label_ids).map
        (fun p => if p.1 = p.2 then (1 : ℚ) else 0)).length = label_ids.length := by
      simp [List.length_zip, hlen]
    rw [sum_indicator_eq_countP (fun p : ℚ × ℚ => p.1 = p.2)
      ((predictions.map (fun r => (argmaxIdx r : ℚ))).zip label_ids), hl]

/-- Witness for C7: on predictions with argmaxes `[1,0,1]` and references
`[1,1,1]` the accuracy fallback yields 2/3. -/
theorem c7_no_task_fallback_metrics_witness :
    compute_metrics (fun _ _ => []) none false [[0, 1], [1, 0], [0, 1]] [1, 1, 1]
      = [("accuracy", 2 / 3)] := by
  have h := (c7_no_task_fallback_metrics (fun _ _ => [])
    [[0, 1], [1, 0], [0, 1]] [1, 1, 1] rfl).2
  rw [h]
  norm_num [argmaxIdx, List.enum, List.enumFrom, List.countP, List.countP.go]

/-- C8: `__post_init__` validation fails exactly when a given task name,
lower-cased, is not one of the 9 canonical GLUE identifiers; or no task
name is given and the train or validation file is missing; or no task
name is given and a provided file's extension is not csv or json.  Every
other configuration passes. -/
theorem c8_post_init_validation (a : GlueDataArgs) :
    (∃ e, post_init a = Except.error e) ↔
      ((∃ t, a.task_name = some t
          ∧ strLower t ∉ ["cola", "mnli", "mrpc", "qnli", "qqp", "rte", "sst2", "stsb", "wnli"])
       ∨ (a.task_name = none ∧ (a.train_file = none ∨ a.validation_file = none))
       ∨ (a.task_name = none
           ∧ ((∃ f, a.train_file = some f
                ∧ ¬(fileExtension f = "csv" ∨ fileExtension f = "json"))
              ∨ (∃ f, a.validation_file = some f
                ∧ ¬(fileExtension f = "csv" ∨ fileExtension f = "json"))))) := by
  obtain ⟨tn, tf, vf⟩ := a
  have hnames : glueTaskNames
      = ["cola", "mnli", "mrpc", "qnli", "qqp", "rte", "sst2", "stsb", "wnli"] := rfl
  cases tn with
  | some t =>
    by_cases hm : strLower t ∈ ["cola", "mnli", "mrpc", "qnli", "qqp", "rte", "sst2", "stsb", "wnli"]
    · simp only [post_init, hnames, hm, if_true]
      simp only [List.mem_cons, List.mem_singleton, List.not_mem_nil] at hm
      simp
      tauto
    · simp only [post_init, hnames, hm, if_false]
      simp only [List.mem_cons, List.mem_singleton, List.not_mem_nil] at hm
      simp
      tauto
  | none =>
    cases tf with
    | none => simp [post_init]
    | some f1 =>
      cases vf with
      | none => simp [post_init]
      | some f2 =>
        by_cases h1 : fileExtension f1 = "csv" ∨ fileExtension f1 = "json"
        · by_cases h2 : fileExtension f2 = "csv" ∨ fileExtension f2 = "json"
          · simp [post_init, h1, h2]
            tauto
          · simp [post_init, h1, h2]
            tauto
        · simp [post_init, h1]
          tauto

/-- Witness for C8: providing no task name and a train file with a `txt`
extension is rejected, and lower-casing makes the task name `MRPC`
acceptable. -/
theorem c8_post_init_validation_witness :
    (∃ e, post_init ⟨none, some "a.txt", some "b.csv"⟩ = Except.error e)
    ∧ ¬ (∃ e, post_init ⟨some "MRPC", none, none⟩ = Except.error e) := by
  constructor
  · exact (c8_post_init_validation ⟨none, some "a.txt", some "b.csv"⟩).mpr
      (Or.inr (Or.inr ⟨rfl, Or.inl ⟨"a.txt", rfl, by decide⟩⟩))
  · intro h
    rcases (c8_post_init_validation ⟨some "MRPC", none, none⟩).mp h with
      ⟨t, ht, hmem⟩ | ⟨h2, _⟩ | ⟨h2, _⟩
    · rw [Option.some.injEq] at ht
      subst ht
      exact hmem (by decide)
    · exact Option.noConfusion h2
    · exact Option.noConfusion h2

/-- Counterexample to C5 as stated: a run with no task name whose label
column is floating-point raises the unbound-local error before any
`label_to_id` table is built, so not every no-task run builds the direct
table. -/
theorem c5_counterexample_float_run_raises :
    create_datasets_labels none ⟨[], "float64", []⟩ []
      = Except.error (PyErr.unboundLocal "label_list") := rfl

/-- C5 (amended): for every run with no task name whose label column is
not floating-point, `create_datasets` completes and builds the direct
label-to-dense-index table over the sorted unique label list, mapping
each inferred label value to its position in that list. -/
theorem c5_no_task_direct_table (ds : DatasetInfo) (label2id : List (String × Int))
    (hf : ds.labelDtype ≠ "float32" ∧ ds.labelDtype ≠ "float64") :
    create_datasets_labels none ds label2id
      = Except.ok ⟨false, sortLe PyVal.le (uniqList ds.trainLabels),
          (sortLe PyVal.le (uniqList ds.trainLabels)).length,
          some (enumTable (sortLe PyVal.le (uniqList ds.trainLabels))), false⟩
    ∧ ∀ (i : Nat) (v : PyVal),
        (sortLe PyVal.le (uniqList ds.trainLabels)).get? i = some v →
          assocGet? (enumTable (sortLe PyVal.le (uniqList ds.trainLabels))) v = some i := by
  obtain ⟨h1, h2⟩ := hf
  have hd : deriveLabelSpace none ds
      = (false, (sortLe PyVal.le (uniqList ds.trainLabels)).length,
         some (sortLe PyVal.le (uniqList ds.trainLabels))) := by
    simp [deriveLabelSpace, h1, h2]
  constructor
  · simp [create_datasets_labels, hd, resolveLabelToId]
  · intro i v hv
    have hnd : (sortLe PyVal.le (uniqList ds.trainLabels)).Nodup :=
      ((sortLe_perm PyVal.le (uniqList ds.trainLabels)).nodup_iff).mpr
        (uniqList_nodup ds.trainLabels)
    exact assocGet?_enumTable _ hnd i v hv

/-- Witness for C5 (amended): label values `{"pos","neg"}` give the
sorted label list `["neg","pos"]` and the table `{"neg": 0, "pos": 1}`. -/
theorem c5_no_task_direct_table_witness :
    create_datasets_labels none ⟨[], "string", [PyVal.str "pos", PyVal.str "neg", PyVal.str "pos"]⟩ []
      = Except.ok ⟨false, [PyVal.str "neg", PyVal.str "pos"], 2,
          some [(PyVal.str "neg", 0), (PyVal.str "pos", 1)], false⟩ := by
  have h := c5_no_task_direct_table
    ⟨[], "string", [PyVal.str "pos", PyVal.str "neg", PyVal.str "pos"]⟩ []
    ⟨by decide, by decide⟩
  exact h.1.trans (by rfl)

/-- C6: every successful `preprocess_function` run tokenizes column A
alone when field B is absent and columns A and B jointly when it exists,
passes the configured padding policy and max length with
`truncation=True`, rewrites each label value through the label-to-id
table exactly when that table exists and the batch carries a `label`
field, and passes the labels through unchanged otherwise. -/
theorem c6_preprocess_function_behavior
    (s1 : String) (s2 : Option String) (padding : Padding) (maxLength : Option Nat)
    (tbl : Option (List (PyVal × Int))) (b : Batch) (r : PreResult)
    (h : preprocess_function s1 s2 padding maxLength tbl b = Except.ok r) :
    assocGet? b.cols s1 = some r.tok.textsA
    ∧ (s2 = none → r.tok.textsB = none)
    ∧ (∀ k, s2 = some k → ∃ tb, assocGet? b.cols k = some tb ∧ r.tok.textsB = some tb)
    ∧ r.tok.padding = padding
    ∧ r.tok.maxLength = maxLength
    ∧ r.tok.truncation = true
    ∧ (∀ t ls, tbl = some t → b.labels = some ls →
        ∃ ls2, r.label = some ls2 ∧ ls2.length = ls.length
          ∧ ∀ (j : Nat) (l : PyVal), ls.get? j = some l →
              ∃ n, assocGet? t l = some n ∧ ls2.get? j = some (PyVal.int n))
    ∧ ((tbl = none ∨ b.labels = none) → r.label = b.labels) := by
  unfold preprocess_function at h
  cases hA : getCol b s1 with
  | error e => rw [hA] at h; exact Except.noConfusion h
  | ok ta =>
    rw [hA] at h
    have hcolA : assocGet? b.cols s1 = some ta := (getCol_ok_iff b s1 ta).mp hA
    cases hs2 : s2 with
    | none =>
      rw [hs2] at h
      cases htbl : tbl with
      | none =>
        rw [htbl] at h
        cases hlb : b.labels with
        | none =>
          rw [hlb] at h
          have hr : (⟨⟨ta, none, padding, maxLength, true⟩, none⟩ : PreResult) = r :=
            Except.ok.inj h
          subst hr
          exact ⟨hcolA, fun _ => rfl, fun k hk => Option.noConfusion hk, rfl, rfl, rfl,
            fun t0 ls0 ht0 _ => Option.noConfusion ht0, fun _ => rfl⟩
        | some ls =>
          rw [hlb] at h
          have hr : (⟨⟨ta, none, padding, maxLength, true⟩, some ls⟩ : PreResult) = r :=
            Except.ok.inj h
          subst hr
          exact ⟨hcolA, fun _ => rfl, fun k hk => Option.noConfusion hk, rfl, rfl, rfl,
            fun t0 ls0 ht0 _ => Option.noConfusion ht0, fun _ => rfl⟩
      | some t =>
        rw [htbl] at h
        cases hlb : b.labels with
        | none =>
          rw [hlb] at h
          have hr : (⟨⟨ta, none, padding, maxLength, true⟩, none⟩ : PreResult) = r :=
            Except.ok.inj h
          subst hr
          exact ⟨hcolA, fun _ => rfl, fun k hk => Option.noConfusion hk, rfl, rfl, rfl,
            fun t0 ls0 _ hls0 => Option.noConfusion hls0, fun _ => rfl⟩
        | some ls =>
          rw [hlb] at h
          replace h : (match mapME (labelLookup t) ls with
              | Except.error e => Except.error e
              | Except.ok ls2 =>
                Except.ok (⟨⟨ta, none, padding, maxLength, true⟩, some ls2⟩ : PreResult))
              = Except.ok r := h
          cases hmm : mapME (labelLookup t) ls with
          | error e => rw [hmm] at h; exact Except.noConfusion h
          | ok ls2 =>
            rw [hmm] at h
            have hr : (⟨⟨ta, none, padding, maxLength, true⟩, some ls2⟩ : PreResult) = r :=
              Except.ok.inj h
            subst hr
            refine ⟨hcolA, fun _ => rfl, fun k hk => Option.noConfusion hk, rfl, rfl, rfl,
              fun t0 ls0 ht0 hls0 => ?_, fun hc => ?_⟩
            · have hte : t = t0 := Option.some.inj ht0
              have hlse : ls = ls0 := Option.some.inj hls0
              rw [hte, hlse] at hmm
              obtain ⟨hlen, hget⟩ := mapME_ok_length_get (labelLookup t0) ls0 ls2 hmm
              refine ⟨ls2, rfl, hlen, fun j l hj => ?_⟩
              rcases hget j l hj with ⟨y, hy, hz⟩
              unfold labelLookup at hy
              cases hn : assocGet? t0 l with
              | none => rw [hn] at hy; exact Except.noConfusion hy
              | some n =>
                rw [hn] at hy
                exact ⟨n, rfl, hz.trans (congrArg some (Except.ok.inj hy).symm)⟩
            · rcases hc with hc | hc
              · exact Option.noConfusion hc
              · exact Option.noConfusion hc
    | some k =>
      rw [hs2] at h
      cases hB : getCol b k with
      | error e =>
        have hOpt : getColOpt b (some k) = Except.error e := by
          simp [getColOpt, hB]
        rw [hOpt] at h
        exact Except.noConfusion h
      | ok tb =>
        have hOpt : getColOpt b (some k) = Except.ok (some tb) := by
          simp [getColOpt, hB]
        rw [hOpt] at h
        have hcolB : assocGet? b.cols k = some tb := (getCol_ok_iff b k tb).mp hB
        cases htbl : tbl with
        | none =>
          rw [htbl] at h
          cases hlb : b.labels with
          | none =>
            rw [hlb] at h
            have hr : (⟨⟨ta, some tb, padding, maxLength, true⟩, none⟩ : PreResult) = r :=
              Except.ok.inj h
            subst hr
            refine ⟨hcolA, fun hc => Option.noConfusion hc, fun k0 hk0 => ?_, rfl, rfl, rfl,
              fun t0 ls0 ht0 _ => Option.noConfusion ht0, fun _ => rfl⟩
            obtain rfl : k0 = k := (Option.some.inj hk0).symm
            exact ⟨tb, hcolB, rfl⟩
          | some ls =>
            rw [hlb] at h
            have hr : (⟨⟨ta, some tb, padding, maxLength, true⟩, some ls⟩ : PreResult) = r :=
              Except.ok.inj h
            subst hr
            refine ⟨hcolA, fun hc => Option.noConfusion hc, fun k0 hk0 => ?_, rfl, rfl, rfl,
              fun t0 ls0 ht0 _ => Option.noConfusion ht0, fun _ => rfl⟩
            obtain rfl : k0 = k := (Option.some.inj hk0).symm
            exact ⟨tb, hcolB, rfl⟩
        | some t =>
          rw [htbl] at h
          cases hlb : b.labels with
          | none =>
            rw [hlb] at h
            have hr : (⟨⟨ta, some tb, padding, maxLength, true⟩, none⟩ : PreResult) = r :=
              Except.ok.inj h
            subst hr
            refine ⟨hcolA, fun hc => Option.noConfusion hc, fun k0 hk0 => ?_, rfl, rfl, rfl,
              fun t0 ls0 _ hls0 => Option.noConfusion hls0, fun _ => rfl⟩
            obtain rfl : k0 = k := (Option.some.inj hk0).symm
            exact ⟨tb, hcolB, rfl⟩
          | some ls =>
            rw [hlb] at h
            replace h : (match mapME (labelLookup t) ls with
                | Except.error e => Except.error e
                | Except.ok ls2 =>
                  Except.ok (⟨⟨ta, some tb, padding, maxLength, true⟩, some ls2⟩ : PreResult))
                = Except.ok r := h
            cases hmm : mapME (labelLookup t) ls with
            | error e => rw [hmm] at h; exact Except.noConfusion h
            | ok ls2 =>
              rw [hmm] at h
              have hr : (⟨⟨ta, some tb, padding, maxLength, true⟩, some ls2⟩ : PreResult) = r :=
                Except.ok.inj h
              subst hr
              refine ⟨hcolA, fun hc => Option.noConfusion hc, fun k0 hk0 => ?_, rfl, rfl, rfl,
                fun t0 ls0 ht0 hls0 => ?_, fun hc => ?_⟩
              · obtain rfl : k0 = k := (Option.some.inj hk0).symm
                exact ⟨tb, hcolB, rfl⟩
              · have hte : t = t0 := Option.some.inj ht0
                have hlse : ls = ls0 := Option.some.inj hls0
                rw [hte, hlse] at hmm
                obtain ⟨hlen, hget⟩ := mapME_ok_length_get (labelLookup t0) ls0 ls2 hmm
                refine ⟨ls2, rfl, hlen, fun j l hj => ?_⟩
                rcases hget j l hj with ⟨y, hy, hz⟩
                unfold labelLookup at hy
                cases hn : assocGet? t0 l with
                | none => rw [hn] at hy; exact Except.noConfusion hy
                | some n =>
                  rw [hn] at hy
                  exact ⟨n, rfl, hz.trans (congrArg some (Except.ok.inj hy).symm)⟩
              · rcases hc with hc | hc
                · exact Option.noConfusion hc
                · exact Option.noConfusion hc

/-- Witness for C6: a two-field batch with a label table rewrites the
label `pos` to id 1 and tokenizes both columns with truncation. -/
theorem c6_preprocess_function_behavior_witness :
    ∃ r, preprocess_function "sentence1" (some "sentence2") Padding.maxLength (some 128)
        (some [(PyVal.str "neg", 0), (PyVal.str "pos", 1)])
        ⟨[("sentence1", ["a"]), ("sentence2", ["b"])], some [PyVal.str "pos"]⟩
      = Except.ok r
    ∧ r.tok.truncation = true ∧ r.tok.textsB = some ["b"] ∧ r.label = some [PyVal.int 1] := by
  refine ⟨⟨⟨["a"], some ["b"], Padding.maxLength, some 128, true⟩, some [PyVal.int 1]⟩,
    rfl, ?_, rfl, rfl⟩
  have h := c6_preprocess_function_behavior "sentence1" (some "sentence2")
    Padding.maxLength (some 128)
    (some [(PyVal.str "neg", 0), (PyVal.str "pos", 1)])
    ⟨[("sentence1", ["a"]), ("sentence2", ["b"])], some [PyVal.str "pos"]⟩
    ⟨⟨["a"], some ["b"], Padding.maxLength, some 128, true⟩, some [PyVal.int 1]⟩ rfl
  exact h.2.2.2.2.2.1

/-- Counterexample to C1 as stated: a full `create_datasets` label run on
task `mrpc` where the lower-cased model label names agree exactly with the
dataset label list (the sorted name lists coincide) still builds no remap
table — `label_to_id` stays `None` and no warning is logged — because the
remap branch is additionally gated on a non-default `label2id`, a given
task name, and `is_regression`; so "remap is constructed iff the name sets
are equal" fails in the only-if-free direction. -/
theorem c1_counterexample_equal_names_no_remap :
    sortLe PyVal.le ((assocKeys (lowerDict [("not_equivalent", 0), ("equivalent", 1)])).map PyVal.str)
      = sortLe PyVal.le [PyVal.str "not_equivalent", PyVal.str "equivalent"]
    ∧ create_datasets_labels (some "mrpc")
        ⟨[PyVal.str "not_equivalent", PyVal.str "equivalent"], "int64", []⟩
        [("not_equivalent", 0), ("equivalent", 1)]
      = Except.ok ⟨false, [PyVal.str "not_equivalent", PyVal.str "equivalent"], 2, none, false⟩ :=
  ⟨by decide, rfl⟩

/-- C1 (amended): with a task name given, the remap resolution step builds
a dataset-index-to-model-id table if and only if the model's `label2id`
differs from the default mapping, `is_regression` is true, and the sorted
lower-cased model label names equal the sorted dataset label list; the
table then maps each position to the model id of the label name at that
position.  When the gate holds but the name lists differ, no table is
built and the warning is logged; when the gate fails, no table is built
and no warning is logged. -/
theorem c1_remap_resolution (inp : RemapInput)
    (hn : inp.num_labels = inp.label_list.length)
    (ht : inp.task_name ≠ none) :
    (dictEqB inp.label2id (defaultLabel2Id inp.num_labels) = false →
      inp.is_regression = true →
      sortLe PyVal.le ((assocKeys (lowerDict inp.label2id)).map PyVal.str)
          = sortLe PyVal.le inp.label_list →
      ∃ t, resolveLabelToId inp = Except.ok (some t, false)
        ∧ t.length = inp.num_labels
        ∧ ∀ (j : Nat) (v : PyVal), inp.label_list.get? j = some v → j < inp.num_labels →
            ∃ s id, v = PyVal.str s
              ∧ assocGet? (lowerDict inp.label2id) s = some id
              ∧ t.get? j = some (PyVal.int j, id))
    ∧ (dictEqB inp.label2id (defaultLabel2Id inp.num_labels) = false →
        inp.is_regression = true →
        sortLe PyVal.le ((assocKeys (lowerDict inp.label2id)).map PyVal.str)
            ≠ sortLe PyVal.le inp.label_list →
        resolveLabelToId inp = Except.ok (none, true))
    ∧ (¬(dictEqB inp.label2id (defaultLabel2Id inp.num_labels) = false
          ∧ inp.is_regression = true) →
        resolveLabelToId inp = Except.ok (none, false)) := by
  refine ⟨fun hdict hreg heq => ?_, fun hdict hreg hne => ?_, fun hng => ?_⟩
  · have hmem : ∀ v ∈ inp.label_list,
        ∃ s, v = PyVal.str s ∧ s ∈ assocKeys (lowerDict inp.label2id) := by
      intro v hv
      have h1 : v ∈ sortLe PyVal.le inp.label_list :=
        (sortLe_mem PyVal.le v inp.label_list).mpr hv
      rw [← heq] at h1
      have h2 : v ∈ (assocKeys (lowerDict inp.label2id)).map PyVal.str :=
        (sortLe_mem PyVal.le v _).mp h1
      rcases List.mem_map.mp h2 with ⟨s, hs, hsv⟩
      exact ⟨s, hsv.symm, hs⟩
    have hok : ∀ i ∈ List.range inp.num_labels,
        ∃ y, remapEntry (lowerDict inp.label2id) inp.label_list i = Except.ok y := by
      intro i hi
      have hilt : i < inp.label_list.length := hn ▸ List.mem_range.mp hi
      obtain ⟨v, hv⟩ : ∃ v, inp.label_list.get? i = some v :=
        ⟨_, List.get?_eq_get hilt⟩
      rcases hmem v (List.get?_mem hv) with ⟨s, rfl, hsk⟩
      rcases assocGet?_isSome_of_mem_keys _ s hsk with ⟨id, hid⟩
      have hv2 : inp.label_list[i]? = some (PyVal.str s) := by
        rw [← List.get?_eq_getElem?]
        exact hv
      exact ⟨(PyVal.int i, id), by simp [remapEntry, hv2, hid]⟩
    obtain ⟨t, hbuild⟩ := mapME_ok_of_forall_ok _ _ hok
    have hbuild2 : buildRemap (lowerDict inp.label2id) inp.label_list inp.num_labels
        = Except.ok t := hbuild
    have hres : resolveLabelToId inp = Except.ok (some t, false) := by
      unfold resolveLabelToId
      rw [if_pos ⟨hdict, ht, hreg⟩]
      simp only [heq, if_true]
      rw [hbuild2]
    obtain ⟨hlen, hget⟩ := mapME_ok_length_get _ _ t hbuild
    refine ⟨t, hres, by rw [hlen, List.length_range], fun j v hj hjlt => ?_⟩
    have hrange : (List.range inp.num_labels).get? j = some j := by
      rw [List.get?_eq_get (by simpa using hjlt)]
      simp
    obtain ⟨y, hy, hz⟩ := hget j j hrange
    rcases hmem v (List.get?_mem hj) with ⟨s, rfl, hsk⟩
    rcases assocGet?_isSome_of_mem_keys _ s hsk with ⟨id, hid⟩
    have hyv : y = (PyVal.int j, id) := by
      have hj2 : inp.label_list[j]? = some (PyVal.str s) := by
        rw [← List.get?_eq_getElem?]
        exact hj
      have : remapEntry (lowerDict inp.label2id) inp.label_list j
          = Except.ok (PyVal.int j, id) := by
        simp [remapEntry, hj2, hid]
      rw [this] at hy
      exact (Except.ok.inj hy).symm
    subst hyv
    exact ⟨s, id, rfl, hid, hz⟩
  · unfold resolveLabelToId
    rw [if_pos ⟨hdict, ht, hreg⟩]
    simp only [hne, if_false]
  · unfold resolveLabelToId
    rw [if_neg (fun hc => hng ⟨hc.1, hc.2.2⟩), if_neg ht]

/-- Witness for C1 (amended): on task `stsb` with `is_regression` set, a
non-default model `label2id` whose lower-cased names match the label list
`["neg","pos"]`, a remap table is built without a warning. -/
theorem c1_remap_resolution_witness :
    ∃ t, resolveLabelToId
        ⟨[("NEG", 1), ("POS", 0)], some "stsb", true, [PyVal.str "neg", PyVal.str "pos"], 2⟩
      = Except.ok (some t, false) := by
  obtain ⟨t, hres, -, -⟩ :=
    (c1_remap_resolution
      ⟨[("NEG", 1), ("POS", 0)], some "stsb", true, [PyVal.str "neg", PyVal.str "pos"], 2⟩
      rfl (by decide)).1 (by decide) rfl (by decide)
  exact ⟨t, hres⟩

end GlueXP
